import Mathlib

/-!
Verification of the Go code-emission backend (package golang, file go.go).

The development shallowly embeds the generator: the emission buffer
(`bytes.Buffer` plus the indent slice) becomes an explicit `Gen` state,
every Write/WriteString/WriteByte/WriteRune call becomes an append to the
buffer, each declaration emitter becomes a `Gen → Gen` function that is a
statement-by-statement transcription of the source, and the top-level
`Generate` becomes a function from a document, an option blob and a sink
behaviour to an outcome.  Go runtime panics (failed type assertions,
out-of-range indexing, method calls on a nil interface) are modelled
explicitly: partial operations return `Option` and the driver surfaces a
`panicked` outcome.

Buffers are `List Char`.  All brace characters inside string literals are
written with the escapes \x7b and \x7d.
-/

set_option maxHeartbeats 1000000
set_option maxRecDepth 100000

/-- Chars of a string literal; used to state buffer contents. -/
def cs (s : String) : List Char := s.data

/-- Emission buffer state: the generator's `bytes.Buffer` contents plus the
`indent []byte` slice (go.go lines 27-32). -/
structure Gen where
  buf : List Char
  indent : List Char
deriving DecidableEq, Repr

/-- Models every buffer write method (`Write`, `WriteString`, `WriteByte`,
`WriteRune`): each one appends bytes to the buffer. -/
def Gen.write (g : Gen) (s : String) : Gen := { g with buf := g.buf ++ s.data }

/-- Models `g.Write(g.indent)`: writes the current indent bytes. -/
def Gen.writeInd (g : Gen) : Gen := { g with buf := g.buf ++ g.indent }

/-- Models `Generator.In` (go.go line 835): append one tab to the indent. -/
def Gen.In (g : Gen) : Gen := { g with indent := g.indent ++ ['\t'] }

/-- Models `Generator.Out` (go.go line 840): drop the last indent byte, a
no-op when the indent is already empty. -/
def Gen.Out (g : Gen) : Gen :=
  if g.indent.length > 0 then { g with indent := g.indent.dropLast } else g

/-- Models `Generator.Reset` (go.go line 35): the buffer is emptied and the
indent slice is truncated to length zero (its capacity is irrelevant). -/
def Gen.reset (_ : Gen) : Gen := { buf := [], indent := [] }

/-- One `interface{}` argument of `Generator.P` (go.go line 811).  The Go
type switch handles `[]byte`, `byte`, `rune`, `string`, `bool`, `int` and
`float64`; a value of any other type matches no case and writes nothing.
The `identv` constructor models an `*ast.Ident` argument (passed at go.go
line 464), which is such an unhandled value. -/
inductive PArg where
  | bytes (b : String)
  | ch (c : Char)
  | str (s : String)
  | boolv (b : Bool)
  | intv (n : Int)
  | identv (name : String)

/-- Text a single `P` argument contributes to the output. -/
def PArg.text : PArg → String
  | .bytes b => b
  | .ch c => String.singleton c
  | .str s => s
  | .boolv b => if b then "true" else "false"
  | .intv n => toString n
  | .identv _ => ""

/-- Models `Generator.P` (go.go line 811): write the current indent, then
each argument's text, then a newline. -/
def Gen.P (g : Gen) (args : List PArg) : Gen :=
  (args.foldl (fun (g : Gen) (a : PArg) => g.write a.text)
    { g with buf := g.buf ++ g.indent }).write "\n"

/-!
Field/argument type values handed to `printType` (go.go line 700): the
unwrapped oneof of `ast.Field.Type` / `ast.InputValue.Type`, which is an
`*ast.Ident`, `*ast.List` or `*ast.NonNull`.  Per the source grammar an
`ast.NonNull.Type` oneof can only hold an `Ident` or a `List`, hence the
separate `NNVal`.
-/
mutual
inductive TypeVal where
  | ident (name : String)
  | list (inner : TypeVal)
  | nonNull (inner : NNVal)
inductive NNVal where
  | ident (name : String)
  | list (inner : TypeVal)
end

/-- Renaming applied to a named type (go.go lines 703-718): the five
built-ins map to fixed graphql identifiers, any other name gets the
`typeSuffix` (`"Type"`, go.go line 43) appended. -/
def identText (name : String) : String :=
  match name with
  | "Int" => "graphql.Int"
  | "Float" => "graphql.Float"
  | "String" => "graphql.String"
  | "Boolean" => "graphql.Boolean"
  | "ID" => "graphql.ID"
  | _ => name ++ "Type"

/-!
`printType` (go.go line 700).  The `nonNull` case re-enters the type
switch with the unwrapped `Ident` or `List` value, which is what
`printTypeNN` transcribes.
-/
mutual
def printType : TypeVal → String
  | .ident n => identText n
  | .list inner => "graphql.NewList(" ++ printType inner ++ ")"
  | .nonNull inner => "graphql.NewNonNull(" ++ printTypeNN inner ++ ")"
def printTypeNN : NNVal → String
  | .ident n => identText n
  | .list inner => "graphql.NewList(" ++ printType inner ++ ")"
end

/-- Embeds the restricted `NonNull` payload back into the general type
value; `printTypeNN` agrees with `printType` along this embedding. -/
def NNVal.toTypeVal : NNVal → TypeVal
  | .ident n => .ident n
  | .list inner => .list inner

/-- Models the field/argument type oneof being unset (`nil`): the local
`fieldType interface{}` stays nil and `printType` writes nothing. -/
def printOptType : Option TypeVal → String
  | none => ""
  | some t => printType t

/-!
Composite literal values (`ast.CompositeLit` and friends) as consumed by
`printVal` (go.go line 751).
-/
mutual
inductive CompositeVal where
  | basic (value : String)
  | listv (l : ListVal)
  | objv (fields : List (String × CompositeVal))
inductive ListVal where
  | basicList (values : List String)
  | compositeList (values : List CompositeVal)
end

/-- Models `printVal` on a `[]*ast.BasicLit` list (each element prints its
raw value), joined by `", "`. -/
def joinBasics : List String → String
  | [] => ""
  | [v] => v
  | v :: w :: rest => v ++ ", " ++ joinBasics (w :: rest)

/-!
`printVal` (go.go line 751) on a `*ast.CompositeLit` together with its
list/object helpers.  List elements are joined by `", "` (comma only
between elements); object pairs render as `key: value` with a comma
between pairs and a space after every pair.
-/
mutual
def printComposite : CompositeVal → String
  | .basic v => v
  | .listv l => printListVal l
  | .objv fields => "\x7b " ++ printObjFields fields ++ "\x7d"
def printListVal : ListVal → String
  | .basicList vs => "[]interface\x7b\x7d\x7b" ++ joinBasics vs ++ "\x7d"
  | .compositeList vs => "[]interface\x7b\x7d\x7b" ++ joinComposites vs ++ "\x7d"
def printObjFields : List (String × CompositeVal) → String
  | [] => ""
  | [(k, v)] => k ++ ": " ++ printComposite v ++ " "
  | (k, v) :: kv :: rest => k ++ ": " ++ printComposite v ++ ", " ++ printObjFields (kv :: rest)
def joinComposites : List CompositeVal → String
  | [] => ""
  | [v] => printComposite v
  | v :: w :: rest => printComposite v ++ ", " ++ joinComposites (w :: rest)
end

/-- The default-value oneof of an `ast.InputValue` (`InputValue_BasicLit`
or `InputValue_CompositeLit`), as unwrapped by the emitters before calling
`printVal`. -/
inductive DefaultVal where
  | basic (value : String)
  | composite (c : CompositeVal)

/-- Text `printVal` produces for an unwrapped default value. -/
def printDefault : DefaultVal → String
  | .basic v => v
  | .composite c => printComposite c

/-- Models `printDescr` (go.go line 686) applied to a doc group whose
`Text()` is `text`: when the text is non-empty, write the indent, the
`Description` key, the text with its final character dropped
(`text[:len(text)-1]`), a closing quote and a comma.  No newline is
written here; callers add it. -/
def Gen.printDescr (g : Gen) (text : String) : Gen :=
  if text.length > 0 then
    ((((g.writeInd).write "Description: \"").write (text.dropRight 1)).write "\"").write ","
  else g

/-- Models the recurring pattern `if doc != nil && descr { g.printDescr(doc);
g.WriteByte('\n') }`.  `doc = some t` means the `*ast.DocGroup` is non-nil
and its `Text()` returns `t`. -/
def Gen.descrPart (g : Gen) (descr : Bool) (doc : Option String) : Gen :=
  match doc, descr with
  | some t, true => (g.printDescr t).write "\n"
  | _, _ => g

/-- Models the inline variant used by `generateScalar` (go.go lines
198-203) and `generateDirective` (lines 604-609): the description is
emitted with `P` (so with its own indent and newline) when the doc group
is non-nil, descriptions are enabled and the text is non-empty. -/
def Gen.descrLineP (g : Gen) (descr : Bool) (doc : Option String) : Gen :=
  match doc, descr with
  | some t, true =>
    if t.length > 0 then g.P [.str "Description: \"", .str (t.dropRight 1), .str "\","] else g
  | _, _ => g

/-- Models `ast.InputValue`: an argument or input-object field. -/
structure Arg where
  name : String
  type : Option TypeVal
  default : Option DefaultVal
  doc : Option String

/-- Models `ast.Field`: an object/interface field, an enum value (only
`name` and `doc` used there) or a schema root operation. -/
structure AField where
  name : String
  type : Option TypeVal
  args : Option (List Arg)
  doc : Option String

/-- Models `generateScalar` (go.go line 193). -/
def generateScalar (descr : Bool) (doc : Option String) (name : String) (g : Gen) : Gen :=
  let g := g.P [.str "NewScalar(graphql.ScalarConfig\x7b"]
  let g := g.In
  let g := g.P [.str "Name: \"", .str name, .str "\","]
  let g := g.descrLineP descr doc
  let g := g.P [.str "Serialize: func(value interface\x7b\x7d) interface\x7b\x7d \x7b return nil \x7d, // TODO"]
  let g := g.Out
  g.P [.str "\x7d)"]

/-- Models one iteration of the argument loop shared by `generateObject`
(go.go lines 272-315) and `generateDirective` (lines 632-675). -/
def objArgStep (descr : Bool) (a : Arg) (g : Gen) : Gen :=
  let g := g.P [.str "\"", .str a.name, .str "\"", .str ": &graphql.ArgumentConfig\x7b"]
  let g := g.In
  let g := ((g.writeInd).write "Type: ").write (printOptType a.type)
  let g := (g.write ",").write "\n"
  let g := match a.default with
    | some dv => ((((g.writeInd).write "DefaultValue: ").write (printDefault dv)).write ",").write "\n"
    | none => g
  let g := g.descrPart descr a.doc
  let g := g.Out
  g.P [.str "\x7d,"]

/-- Models one iteration of the multi-interface loop of `generateObject`
(go.go lines 237-239). -/
def objInterfaceStep (i : String) (g : Gen) : Gen :=
  g.P [.str i, .bytes "Type", .str ","]

/-- Models one iteration of the field loop of `generateObject` (go.go
lines 248-330). -/
def objFieldStep (descr : Bool) (f : AField) (g : Gen) : Gen :=
  let g := g.P [.str "\"", .str f.name, .str "\"", .str ": &graphql.Field\x7b"]
  let g := g.In
  let g := ((g.writeInd).write "Type: ").write (printOptType f.type)
  let g := (g.write ",").write "\n"
  let g := match f.args with
    | some args =>
      let g := g.P [.str "Args: graphql.FieldConfigArgument\x7b"]
      let g := g.In
      let g := args.foldl (fun (g : Gen) a => objArgStep descr a g) g
      let g := g.Out
      g.P [.str "\x7d,"]
    | none => g
  let g := g.P [.str "Resolve: func(p graphql.ResolveParams) (interface\x7b\x7d, error) \x7b return nil, nil \x7d, // TODO"]
  let g := g.descrPart descr f.doc
  let g := g.Out
  g.P [.str "\x7d,"]

/-- Models `generateObject` (go.go line 211). -/
def generateObject (descr : Bool) (doc : Option String) (name : String)
    (interfaces : List String) (fields : List AField) (g : Gen) : Gen :=
  let g := g.P [.str "NewObject(graphql.ObjectConfig\x7b"]
  let g := g.In
  let g := g.P [.str "Name: \"", .str name, .str "\","]
  let g := match interfaces with
    | [] => g
    | [i] =>
      ((((((g.writeInd).write "Interfaces: []*graphql.Interface\x7b ").write i).write
        "Type").write " \x7d").write ",").write "\n"
    | _ :: _ :: _ =>
      let g := ((g.writeInd).write "Interfaces: []*graphql.Interface\x7b").write "\n"
      let g := g.In
      let g := interfaces.foldl (fun (g : Gen) i => objInterfaceStep i g) g
      let g := g.Out
      g.P [.str "\x7d,"]
  let g := g.P [.str "Fields: graphql.Fields\x7b"]
  let g := g.In
  let g := fields.foldl (fun (g : Gen) f => objFieldStep descr f g) g
  let g := g.Out
  let g := g.P [.str "\x7d,"]
  let g := g.descrPart descr doc
  let g := g.Out
  g.P [.str "\x7d)"]

/-- Models one iteration of the argument loop of `generateInterface`
(go.go lines 380-423).  Unlike `objArgStep`, no comma and no newline are
written after the argument's type expression. -/
def ifaceArgStep (descr : Bool) (a : Arg) (g : Gen) : Gen :=
  let g := g.P [.str "\"", .str a.name, .str "\"", .str ": &graphql.ArgumentConfig\x7b"]
  let g := g.In
  let g := ((g.writeInd).write "Type: ").write (printOptType a.type)
  let g := match a.default with
    | some dv =>
      let g := g.write "\n"
      ((((g.writeInd).write "DefaultValue: ").write (printDefault dv)).write ",").write "\n"
    | none => g
  let g := g.descrPart descr a.doc
  let g := g.Out
  g.P [.str "\x7d,"]

/-- Models one iteration of the field loop of `generateInterface` (go.go
lines 356-438): like an object field but with no `Resolve` callback. -/
def ifaceFieldStep (descr : Bool) (f : AField) (g : Gen) : Gen :=
  let g := g.P [.str "\"", .str f.name, .str "\": &graphql.Field\x7b"]
  let g := g.In
  let g := ((g.writeInd).write "Type: ").write (printOptType f.type)
  let g := (g.write ",").write "\n"
  let g := match f.args with
    | some args =>
      let g := g.P [.str "Args: graphql.FieldConfigArgument\x7b"]
      let g := g.In
      let g := args.foldl (fun (g : Gen) a => ifaceArgStep descr a g) g
      let g := g.Out
      g.P [.str "\x7d,"]
    | none => g
  let g := g.descrPart descr f.doc
  let g := g.Out
  g.P [.str "\x7d,"]

/-- Models `generateInterface` (go.go line 345). -/
def generateInterface (descr : Bool) (doc : Option String) (name : String)
    (fields : List AField) (g : Gen) : Gen :=
  let g := g.P [.str "NewInterface(graphql.InterfaceConfig\x7b"]
  let g := g.In
  let g := g.P [.str "Name: \"", .str name, .str "\","]
  let g := g.P [.str "Fields: graphql.Fields\x7b"]
  let g := g.In
  let g := fields.foldl (fun (g : Gen) f => ifaceFieldStep descr f g) g
  let g := g.Out
  let g := g.P [.str "\x7d,"]
  let g := g.descrPart descr doc
  let g := g.Out
  g.P [.str "\x7d)"]

/-- Models one iteration of the multi-member loop of `generateUnion`
(go.go lines 470-472). -/
def unionMemberStep (m : String) (g : Gen) : Gen :=
  g.P [.str m, .bytes "Type", .ch ',']

/-- Models `generateUnion` (go.go line 453).  In the single-member branch
the source passes `union.Members[0]`, an `*ast.Ident`, straight to `P`
(line 464); that argument is the `PArg.identv` value, which `P`'s type
switch does not handle. -/
def generateUnion (descr : Bool) (doc : Option String) (name : String)
    (members : List String) (g : Gen) : Gen :=
  let g := g.P [.str "NewUnion(graphql.UnionConfig\x7b"]
  let g := g.In
  let g := g.P [.str "Name: \"", .str name, .str "\","]
  let g := match members with
    | [] => g
    | [m] => g.P [.str "Types: []*graphql.Object\x7b ", .identv m, .bytes "Type", .str " \x7d,"]
    | _ :: _ :: _ =>
      let g := g.P [.str "Types: []*graphql.Object\x7b"]
      let g := g.In
      let g := members.foldl (fun (g : Gen) m => unionMemberStep m g) g
      let g := g.Out
      g.P [.str "\x7d,"]
  let g := g.P [.str "ResolveType: func(p graphql.ResolveParams) *graphql.Object \x7b return nil \x7d, // TODO"]
  let g := g.descrPart descr doc
  let g := g.Out
  g.P [.str "\x7d)"]

/-- Models one iteration of the value loop of `generateEnum` (go.go lines
505-519). -/
def enumValueStep (descr : Bool) (v : AField) (g : Gen) : Gen :=
  let g := g.P [.str "\"", .str v.name, .str "\"", .str ": &graphql.EnumValueConfig\x7b"]
  let g := g.In
  let g := g.P [.str "Value: \"", .str v.name, .str "\","]
  let g := g.descrPart descr v.doc
  let g := g.Out
  g.P [.str "\x7d,"]

/-- Models `generateEnum` (go.go line 489).  The declaration-level
description is emitted right after the name, before the `Values` map. -/
def generateEnum (descr : Bool) (doc : Option String) (name : String)
    (values : List AField) (g : Gen) : Gen :=
  let g := g.P [.str "NewEnum(graphql.EnumConfig\x7b"]
  let g := g.In
  let g := g.P [.str "Name: \"", .str name, .str "\","]
  let g := g.descrPart descr doc
  let g := g.P [.str "Values: graphql.EnumValueConfigMap\x7b"]
  let g := g.In
  let g := values.foldl (fun (g : Gen) v => enumValueStep descr v g) g
  let g := g.Out
  let g := g.P [.str "\x7d,"]
  let g := g.Out
  g.P [.str "\x7d)"]

/-- Models one iteration of the field loop of `generateInput` (go.go lines
539-582).  Note the source calls `g.Out()` before emitting the per-field
description, so the description line is indented one level less. -/
def inputFieldStep (descr : Bool) (f : Arg) (g : Gen) : Gen :=
  let g := g.P [.str "\"", .str f.name, .str "\"", .str ": &graphql.InputObjectFieldConfig\x7b"]
  let g := g.In
  let g := ((g.writeInd).write "Type: ").write (printOptType f.type)
  let g := (g.write ",").write "\n"
  let g := match f.default with
    | some dv => ((((g.writeInd).write "DefaultValue: ").write (printDefault dv)).write ",").write "\n"
    | none => g
  let g := g.Out
  let g := g.descrPart descr f.doc
  g.P [.str "\x7d,"]

/-- Models `generateInput` (go.go line 528). -/
def generateInput (descr : Bool) (doc : Option String) (name : String)
    (fields : List Arg) (g : Gen) : Gen :=
  let g := g.P [.str "NewInputObject(graphql.InputObjectConfig\x7b"]
  let g := g.In
  let g := g.P [.str "Name: \"", .str name, .str "\","]
  let g := g.P [.str "Fields: graphql.InputObjectFieldConfigMap\x7b"]
  let g := g.In
  let g := fields.foldl (fun (g : Gen) f => inputFieldStep descr f g) g
  let g := g.Out
  let g := g.P [.str "\x7d,"]
  let g := g.descrPart descr doc
  let g := g.Out
  g.P [.str "\x7d)"]

/-- Models one iteration of the multi-location loop of `generateDirective`
(go.go lines 620-622). -/
def locStep (l : String) (g : Gen) : Gen :=
  g.P [.str "\"", .str l, .str "\","]

/-- Models `generateDirective` (go.go line 596).  A single location is
rendered inline, unquoted and with no trailing comma (line 614); multiple
locations render as a quoted multi-line list. -/
def generateDirective (descr : Bool) (doc : Option String) (name : String)
    (locs : List String) (args : Option (List Arg)) (g : Gen) : Gen :=
  let g := g.P [.str "NewDirective(graphql.DirectiveConfig\x7b"]
  let g := g.In
  let g := g.P [.str "Name: \"", .str name, .str "\","]
  let g := g.descrLineP descr doc
  let g := match locs with
    | [] => g
    | [l] => g.P [.str "Locations: []string\x7b ", .str l, .str " \x7d"]
    | _ :: _ :: _ =>
      let g := g.P [.str "Locations: []string\x7b"]
      let g := g.In
      let g := locs.foldl (fun (g : Gen) l => locStep l g) g
      let g := g.Out
      g.P [.str "\x7d,"]
  let g := match args with
    | some as2 =>
      let g := g.P [.str "Args: graphql.FieldConfigArgument\x7b"]
      let g := g.In
      let g := as2.foldl (fun (g : Gen) a => objArgStep descr a g) g
      let g := g.Out
      g.P [.str "\x7d,"]
    | none => g
  let g := g.Out
  g.P [.str "\x7d)"]

/-- Models the generator `Options` struct (go.go line 18). -/
structure Options where
  Package : String
  Descriptions : Bool
deriving DecidableEq, Repr

/-- Models the value oneof of a document-directive argument (`ast.Arg`):
either a basic literal or a composite literal. -/
inductive ArgValue where
  | basicArg (v : String)
  | compositeArg (c : CompositeVal)

/-- Models one document-level directive (an element of `doc.Directives`):
its name and, when `Args` is non-nil, the list of argument values. -/
structure DirectiveLit where
  name : String
  args : Option (List ArgValue)

/-- Models the `Spec` oneof of an `ast.TypeDecl`: a `TypeDecl_TypeSpec`
carrying a named type spec, or the other variant (`TypeDecl_TypeExtSpec`),
which the driver's walk skips. -/
inductive TypeSpecType where
  | scalar
  | object (interfaces : List String) (fields : List AField)
  | iface (fields : List AField)
  | union (members : List String)
  | enum (values : List AField)
  | input (fields : List Arg)
  | directive (locs : List String) (args : Option (List Arg))
  | schema (rootOps : List AField)

inductive DeclSpec where
  | typeSpec (name : String) (type : TypeSpecType)
  | extSpec

/-- Models `ast.TypeDecl`: doc group plus the spec oneof. -/
structure TypeDecl where
  doc : Option String
  spec : DeclSpec

/-- Models `ast.Document`: name, declarations in document order, the
separate `Schema` field and the document-level directives. -/
structure GDoc where
  name : String
  types : List TypeDecl
  schema : Option TypeDecl
  directives : List DirectiveLit

/-- Option-resolution result.  `panicR` models a Go runtime panic (failed
type assertion or out-of-range index), `errR` a returned error. -/
inductive OptRes where
  | panicR
  | errR (msg : String)
  | okR (o : Options)
deriving DecidableEq, Repr

/-- Models `strconv.ParseBool` from the Go standard library: exactly these
twelve strings parse, everything else is a syntax error. -/
def parseBool (s : String) : Option Bool :=
  match s with
  | "1" | "t" | "T" | "true" | "TRUE" | "True" => some true
  | "0" | "f" | "F" | "false" | "FALSE" | "False" => some false
  | _ => none

/-- Models one iteration of the field loop over the directive's object
literal (go.go lines 865-877).  A `package`/`descriptions` value that is
not a basic literal fails the `CompositeLit_BasicLit` type assertion
(panic); a malformed boolean is returned as an error, formatted as
`strconv.ParseBool`'s syntax error. -/
def applyObjField (o : Options) (kv : String × CompositeVal) : OptRes :=
  match kv.1 with
  | "package" =>
    match kv.2 with
    | .basic v => .okR { o with Package := v }
    | _ => .panicR
  | "descriptions" =>
    match kv.2 with
    | .basic v =>
      match parseBool v with
      | some b => .okR { o with Descriptions := b }
      | none => .errR ("strconv.ParseBool: parsing \"" ++ v ++ "\": invalid syntax")
    | _ => .panicR
  | _ => .okR o

def applyObjFields (o : Options) : List (String × CompositeVal) → OptRes
  | [] => .okR o
  | kv :: rest =>
    match applyObjField o kv with
    | .okR o2 => applyObjFields o2 rest
    | r => r

/-- Models the directive scan of `getOptions` (go.go lines 855-878):
non-`go` directives are skipped; a `go` directive with nil `Args` breaks
the loop; otherwise `Args.Args[0]` is indexed (panic when the slice is
empty) and asserted to be a composite object literal (panic otherwise),
whose fields are folded into the options; the loop then continues with the
remaining directives. -/
def scanDirectives (o : Options) : List DirectiveLit → OptRes
  | [] => .okR o
  | d :: rest =>
    if d.name = "go" then
      match d.args with
      | none => .okR o
      | some [] => .panicR
      | some (.basicArg _ :: _) => .panicR
      | some (.compositeArg c :: _) =>
        match c with
        | .objv fields =>
          match applyObjFields o fields with
          | .okR o2 => scanDirectives o2 rest
          | r => r
        | _ => .panicR
    else scanDirectives o rest

/-- Models the invocation option blob handed to `Generate`.  The blob is
external JSON decoded by `encoding/json`; it is represented by its
observable effect: absent (the empty string, skipped at go.go line 881), a
decode failure carrying `json.Unmarshal`'s message, or a flat overlay that
overwrites exactly the fields present in it. -/
inductive OptsBlob where
  | empty
  | malformed (msg : String)
  | fields (pkg : Option String) (descrs : Option Bool)

def applyBlob (o : Options) : OptsBlob → OptRes
  | .empty => .okR o
  | .malformed msg => .errR msg
  | .fields p d => .okR { Package := p.getD o.Package, Descriptions := d.getD o.Descriptions }

/-- The option merge of `getOptions` before the final quote strip:
defaults, then the document directive scan, then the invocation blob. -/
def mergeOptions (doc : GDoc) (blob : OptsBlob) : OptRes :=
  match scanDirectives { Package := "main", Descriptions := false } doc.directives with
  | .okR o => applyBlob o blob
  | r => r

/-- Models the final quote strip of `getOptions` (go.go lines 889-891):
`gOpts.Package[0]` is read unconditionally — an empty package string is an
index-out-of-range panic — and when the first byte is a quote the slice
`Package[1 : len(Package)-1]` is taken, which for a one-byte string is the
out-of-range slice `[1:0]`, also a panic. -/
def stripPackage (o : Options) : OptRes :=
  match o.Package.data with
  | [] => .panicR
  | c :: rest =>
    if c = '"' then
      match rest with
      | [] => .panicR
      | _ => .okR { o with Package := String.mk rest.dropLast }
    else .okR o

/-- Models `getOptions` (go.go line 849). -/
def getOptions (doc : GDoc) (blob : OptsBlob) : OptRes :=
  match mergeOptions doc blob with
  | .okR o => stripPackage o
  | r => r

/-- Models `writeHeader` (go.go line 184). -/
def writeHeader (pkg : String) (g : Gen) : Gen :=
  ((((g.write "package ").write pkg).write "\n\n").write
    "import \"github.com/graphql-go/graphql\"").write "\n\n"

/-- The walk's skip test (go.go lines 78-84): a declaration is emitted iff
its spec is a `TypeDecl_TypeSpec` whose type is not a schema. -/
def declEmit? (d : TypeDecl) : Option (String × TypeSpecType) :=
  match d.spec with
  | .extSpec => none
  | .typeSpec name ty =>
    match ty with
    | .schema _ => none
    | _ => some (name, ty)

/-- The variable head written before dispatch (go.go lines 87-96):
`var <name>Type = graphql.`. -/
def varDeclHead (name : String) (g : Gen) : Gen :=
  (((g.write "var ").write name).write "Type").write " = graphql."

/-- The dispatch switch of the walk (go.go lines 99-114).  A schema spec
reaches no case (and is in fact skipped before the switch). -/
def dispatchEmitter (descr : Bool) (doc : Option String) (name : String) :
    TypeSpecType → Gen → Gen
  | .scalar, g => generateScalar descr doc name g
  | .object ifs fs, g => generateObject descr doc name ifs fs g
  | .iface fs, g => generateInterface descr doc name fs g
  | .union ms, g => generateUnion descr doc name ms g
  | .enum vs, g => generateEnum descr doc name vs g
  | .input fs, g => generateInput descr doc name fs g
  | .directive ls as2, g => generateDirective descr doc name ls as2 g
  | .schema _, g => g

/-- Models the declaration walk (go.go lines 76-119).  `len` is the length
of the full list and `i` the index of the current head; the source prints
a blank line after a declaration when `i != len(doc.Types)-1`, which for a
running iteration (`i < len`) is exactly `i + 1 ≠ len`.  A skipped
declaration (`continue`) bypasses the blank line as well. -/
def genTypesAux (descr : Bool) (len : Nat) : Nat → List TypeDecl → Gen → Gen
  | _, [], g => g
  | i, d :: rest, g =>
    let g :=
      match declEmit? d with
      | none => g
      | some (name, ty) =>
        let g := varDeclHead name g
        let g := dispatchEmitter descr d.doc name ty g
        if i + 1 = len then g else g.P []
    genTypesAux descr len (i + 1) rest g

/-- Models one iteration of the root-operation loop (go.go lines 131-145).
The type assertion `op.Type.(*ast.Field_Ident)` panics (`none`) unless the
operation's type is a plain identifier; an operation name other than
query/mutation/subscription matches no switch case and writes no label. -/
def rootOpStep (op : AField) (g : Gen) : Option Gen :=
  let g := g.writeInd
  let g :=
    if op.name = "query" then g.write "Query: "
    else if op.name = "mutation" then g.write "Mutation: "
    else if op.name = "subscription" then g.write "Subscription: "
    else g
  match op.type with
  | some (.ident n) => some ((((g.write n).write "Type").write ",").write "\n")
  | _ => none

def rootOpsLoop : List AField → Gen → Option Gen
  | [], g => some g
  | op :: rest, g =>
    match rootOpStep op g with
    | some g2 => rootOpsLoop rest g2
    | none => none

/-- Models the chained type assertions on `doc.Schema` (go.go line 130):
`Spec.(*ast.TypeDecl_TypeSpec).TypeSpec.Type.(*ast.TypeSpec_Schema)`;
any other shape panics. -/
def schemaRootOps? (sd : TypeDecl) : Option (List AField) :=
  match sd.spec with
  | .typeSpec _ (.schema ops) => some ops
  | _ => none

/-- Models the schema init block (go.go lines 121-160).  `none` is a
panic from one of the type assertions. -/
def emitInitBlock (sd : TypeDecl) (g : Gen) : Option Gen :=
  let g := g.P []
  let g := g.P [.str "func init() \x7b"]
  let g := g.In
  let g := g.P [.str "var err error"]
  let g := g.P [.str "Schema, err = graphql.NewSchema(graphql.SchemaConfig\x7b"]
  let g := g.In
  match schemaRootOps? sd with
  | none => none
  | some ops =>
    match rootOpsLoop ops g with
    | none => none
    | some g =>
      let g := g.Out
      let g := g.P [.str "\x7d)"]
      let g := g.P [.str "if err != nil \x7b"]
      let g := g.In
      let g := g.P [.str "panic(err)"]
      let g := g.Out
      let g := g.P [.str "\x7d"]
      let g := g.Out
      some (g.P [.str "\x7d"])

/-- Behaviour of the external output sink for one `Generate` call:
whether `Open` hands back a usable (non-nil) `io.WriteCloser`, the error
`Open` returns, and the error `WriteTo`'s write reports. -/
structure SinkBehavior where
  handle : Bool
  openErr : Option String
  writeErr : Option String

/-- Models `compiler.GeneratorError` (the wrapper built in the deferred
error hook, go.go lines 48-56). -/
structure GeneratorError where
  docName : String
  genName : String
  msg : String
deriving DecidableEq, Repr

inductive Outcome where
  | ok
  | failed (e : GeneratorError)
  | panicked
deriving DecidableEq, Repr

/-- Observable result of one `Generate` call: the outcome, whether the
sink's `Open` was ever invoked, the bytes successfully handed to the sink,
and the assembled buffer contents at the hand-off point. -/
structure GenRun where
  outcome : Outcome
  opened : Bool
  written : List Char
  assembled : List Char
deriving DecidableEq, Repr

def wrap (docName msg : String) : Outcome :=
  .failed { docName := docName, genName := "go", msg := msg }

/-- Models `Generate` (go.go line 46).  The mutex is irrelevant to a
single sequential call and is not modelled.  Note the source registers
`defer goFile.Close()` before checking `Open`'s error (lines 167-171), so
when `Open` fails without returning a usable handle the deferred `Close`
is a method call on a nil interface and the call panics instead of
returning the wrapped error; and with a nil handle and a nil open error
the subsequent `WriteTo` panics the same way. -/
def generate (g0 : Gen) (doc : GDoc) (blob : OptsBlob) (sink : SinkBehavior) : GenRun :=
  let g := g0.reset
  match getOptions doc blob with
  | .panicR => { outcome := .panicked, opened := false, written := [], assembled := g.buf }
  | .errR e => { outcome := wrap doc.name e, opened := false, written := [], assembled := g.buf }
  | .okR opts =>
    let g := writeHeader opts.Package g
    let g := if doc.schema.isSome then (g.P [.str "var Schema graphql.Schema"]).P [] else g
    let g := genTypesAux opts.Descriptions doc.types.length 0 doc.types g
    let res : Option Gen :=
      match doc.schema with
      | none => some g
      | some sd => emitInitBlock sd g
    match res with
    | none => { outcome := .panicked, opened := false, written := [], assembled := [] }
    | some g =>
      match sink.openErr with
      | some e =>
        if sink.handle then
          { outcome := wrap doc.name e, opened := true, written := [], assembled := g.buf }
        else
          { outcome := .panicked, opened := true, written := [], assembled := g.buf }
      | none =>
        if sink.handle then
          match sink.writeErr with
          | some e =>
            { outcome := wrap doc.name e, opened := true, written := [], assembled := g.buf }
          | none =>
            { outcome := .ok, opened := true, written := g.buf, assembled := g.buf }
        else
          { outcome := .panicked, opened := true, written := [], assembled := g.buf }

/-!
Closed-form characterizations of the emitters' output, used by the
theorems below.  Each `...Chunk` definition spells out, as an explicit
concatenation, the bytes the corresponding emitter appends; the theorems
prove the state-threaded emitters equal to these closed forms.
-/

/-- One indent unit. -/
def tab : List Char := ("\t").data

/-- A line terminator. -/
def nl : List Char := ("\n").data

/-- Bytes a `P` argument list contributes (between indent and newline). -/
def pText (args : List PArg) : List Char := (args.map (fun a => a.text.data)).flatten

/-- Bytes of `Gen.descrPart`: description line (at `ind`) plus newline when
the doc text is non-empty, a bare newline when the doc group is present
but its text is empty, nothing otherwise. -/
def descrChunk (ind : List Char) (descr : Bool) (doc : Option String) : List Char :=
  match doc, descr with
  | some t, true =>
    (if t.length > 0 then
      ind ++ cs "Description: \"" ++ cs (t.dropRight 1) ++ cs "\"" ++ cs ","
     else []) ++ cs "\n"
  | _, _ => []

/-- Bytes of `Gen.descrLineP` (the `P`-based description of scalar and
directive declarations). -/
def descrLineChunk (ind : List Char) (descr : Bool) (doc : Option String) : List Char :=
  match doc, descr with
  | some t, true =>
    if t.length > 0 then
      ind ++ cs "Description: \"" ++ cs (t.dropRight 1) ++ cs "\"," ++ cs "\n"
    else []
  | _, _ => []

/-- Bytes of one object/directive argument (`objArgStep`). -/
def argChunk (descr : Bool) (ind : List Char) (a : Arg) : List Char :=
  ind ++ cs "\"" ++ cs a.name ++ cs "\"" ++ cs ": &graphql.ArgumentConfig\x7b" ++ cs "\n"
  ++ (ind ++ tab) ++ cs "Type: " ++ cs (printOptType a.type) ++ cs "," ++ cs "\n"
  ++ (match a.default with
      | some dv => (ind ++ tab) ++ cs "DefaultValue: " ++ cs (printDefault dv) ++ cs "," ++ cs "\n"
      | none => [])
  ++ descrChunk (ind ++ tab) descr a.doc
  ++ ind ++ cs "\x7d," ++ cs "\n"

/-- Bytes of one interface argument (`ifaceArgStep`).  Note the missing
comma and newline after the type expression: with no default value the
closing `},` line is glued onto the `Type:` line. -/
def ifaceArgChunk (descr : Bool) (ind : List Char) (a : Arg) : List Char :=
  ind ++ cs "\"" ++ cs a.name ++ cs "\"" ++ cs ": &graphql.ArgumentConfig\x7b" ++ cs "\n"
  ++ (ind ++ tab) ++ cs "Type: " ++ cs (printOptType a.type)
  ++ (match a.default with
      | some dv => cs "\n" ++ (ind ++ tab) ++ cs "DefaultValue: " ++ cs (printDefault dv) ++ cs "," ++ cs "\n"
      | none => [])
  ++ descrChunk (ind ++ tab) descr a.doc
  ++ ind ++ cs "\x7d," ++ cs "\n"

/-- Bytes of one object field (`objFieldStep`). -/
def fieldChunk (descr : Bool) (ind : List Char) (f : AField) : List Char :=
  ind ++ cs "\"" ++ cs f.name ++ cs "\"" ++ cs ": &graphql.Field\x7b" ++ cs "\n"
  ++ (ind ++ tab) ++ cs "Type: " ++ cs (printOptType f.type) ++ cs "," ++ cs "\n"
  ++ (match f.args with
      | some args =>
        (ind ++ tab) ++ cs "Args: graphql.FieldConfigArgument\x7b" ++ cs "\n"
        ++ (args.map (argChunk descr (ind ++ tab ++ tab))).flatten
        ++ (ind ++ tab) ++ cs "\x7d," ++ cs "\n"
      | none => [])
  ++ (ind ++ tab)
  ++ cs "Resolve: func(p graphql.ResolveParams) (interface\x7b\x7d, error) \x7b return nil, nil \x7d, // TODO"
  ++ cs "\n"
  ++ descrChunk (ind ++ tab) descr f.doc
  ++ ind ++ cs "\x7d," ++ cs "\n"

/-- Bytes of one interface field (`ifaceFieldStep`): an object field
without the `Resolve` line, with the interface argument rendering. -/
def ifaceFieldChunk (descr : Bool) (ind : List Char) (f : AField) : List Char :=
  ind ++ cs "\"" ++ cs f.name ++ cs "\": &graphql.Field\x7b" ++ cs "\n"
  ++ (ind ++ tab) ++ cs "Type: " ++ cs (printOptType f.type) ++ cs "," ++ cs "\n"
  ++ (match f.args with
      | some args =>
        (ind ++ tab) ++ cs "Args: graphql.FieldConfigArgument\x7b" ++ cs "\n"
        ++ (args.map (ifaceArgChunk descr (ind ++ tab ++ tab))).flatten
        ++ (ind ++ tab) ++ cs "\x7d," ++ cs "\n"
      | none => [])
  ++ descrChunk (ind ++ tab) descr f.doc
  ++ ind ++ cs "\x7d," ++ cs "\n"

/-- Bytes of one input-object field (`inputFieldStep`): the description,
when present, sits at the outer indent because the source dedents first. -/
def inputFieldChunk (descr : Bool) (ind : List Char) (f : Arg) : List Char :=
  ind ++ cs "\"" ++ cs f.name ++ cs "\"" ++ cs ": &graphql.InputObjectFieldConfig\x7b" ++ cs "\n"
  ++ (ind ++ tab) ++ cs "Type: " ++ cs (printOptType f.type) ++ cs "," ++ cs "\n"
  ++ (match f.default with
      | some dv => (ind ++ tab) ++ cs "DefaultValue: " ++ cs (printDefault dv) ++ cs "," ++ cs "\n"
      | none => [])
  ++ descrChunk ind descr f.doc
  ++ ind ++ cs "\x7d," ++ cs "\n"

/-- Bytes of one enum value (`enumValueStep`). -/
def enumValueChunk (descr : Bool) (ind : List Char) (v : AField) : List Char :=
  ind ++ cs "\"" ++ cs v.name ++ cs "\"" ++ cs ": &graphql.EnumValueConfig\x7b" ++ cs "\n"
  ++ (ind ++ tab) ++ cs "Value: \"" ++ cs v.name ++ cs "\"," ++ cs "\n"
  ++ descrChunk (ind ++ tab) descr v.doc
  ++ ind ++ cs "\x7d," ++ cs "\n"

/-- Bytes of a scalar declaration body at top level: the description,
when emitted, sits between the `Name` field and the `Serialize` field. -/
def scalarChunk (descr : Bool) (doc : Option String) (name : String) : List Char :=
  cs "NewScalar(graphql.ScalarConfig\x7b" ++ cs "\n"
  ++ tab ++ cs "Name: \"" ++ cs name ++ cs "\"," ++ cs "\n"
  ++ descrLineChunk tab descr doc
  ++ tab ++ cs "Serialize: func(value interface\x7b\x7d) interface\x7b\x7d \x7b return nil \x7d, // TODO"
  ++ cs "\n"
  ++ cs "\x7d)" ++ cs "\n"

/-- Bytes of an object's `Interfaces` field: nothing for zero interfaces,
an inline entry for exactly one, a multi-line list for two or more. -/
def interfacesChunk (interfaces : List String) : List Char :=
  match interfaces with
  | [] => []
  | [i] =>
    tab ++ cs "Interfaces: []*graphql.Interface\x7b " ++ cs i ++ cs "Type" ++ cs " \x7d"
    ++ cs "," ++ cs "\n"
  | _ :: _ :: _ =>
    tab ++ cs "Interfaces: []*graphql.Interface\x7b" ++ cs "\n"
    ++ (interfaces.map (fun i => tab ++ tab ++ cs i ++ cs "Type" ++ cs "," ++ cs "\n")).flatten
    ++ tab ++ cs "\x7d," ++ cs "\n"

/-- Bytes of an object declaration body: the description, when emitted, is
the last keyed field before the closing `})`. -/
def objectChunk (descr : Bool) (doc : Option String) (name : String)
    (interfaces : List String) (fields : List AField) : List Char :=
  cs "NewObject(graphql.ObjectConfig\x7b" ++ cs "\n"
  ++ tab ++ cs "Name: \"" ++ cs name ++ cs "\"," ++ cs "\n"
  ++ interfacesChunk interfaces
  ++ tab ++ cs "Fields: graphql.Fields\x7b" ++ cs "\n"
  ++ (fields.map (fieldChunk descr (tab ++ tab))).flatten
  ++ tab ++ cs "\x7d," ++ cs "\n"
  ++ descrChunk tab descr doc
  ++ cs "\x7d)" ++ cs "\n"

/-- Bytes of an interface declaration body. -/
def ifaceChunk (descr : Bool) (doc : Option String) (name : String)
    (fields : List AField) : List Char :=
  cs "NewInterface(graphql.InterfaceConfig\x7b" ++ cs "\n"
  ++ tab ++ cs "Name: \"" ++ cs name ++ cs "\"," ++ cs "\n"
  ++ tab ++ cs "Fields: graphql.Fields\x7b" ++ cs "\n"
  ++ (fields.map (ifaceFieldChunk descr (tab ++ tab))).flatten
  ++ tab ++ cs "\x7d," ++ cs "\n"
  ++ descrChunk tab descr doc
  ++ cs "\x7d)" ++ cs "\n"

/-- Bytes of a union's `Types` field.  In the single-member branch the
member identifier contributes nothing (it is the unhandled `P` argument),
so only the bare type suffix appears between the braces. -/
def unionMembersChunk (members : List String) : List Char :=
  match members with
  | [] => []
  | [_] => tab ++ cs "Types: []*graphql.Object\x7b " ++ cs "Type" ++ cs " \x7d," ++ cs "\n"
  | _ :: _ :: _ =>
    tab ++ cs "Types: []*graphql.Object\x7b" ++ cs "\n"
    ++ (members.map (fun m => tab ++ tab ++ cs m ++ cs "Type" ++ [','] ++ cs "\n")).flatten
    ++ tab ++ cs "\x7d," ++ cs "\n"

/-- Bytes of a union declaration body. -/
def unionChunk (descr : Bool) (doc : Option String) (name : String)
    (members : List String) : List Char :=
  cs "NewUnion(graphql.UnionConfig\x7b" ++ cs "\n"
  ++ tab ++ cs "Name: \"" ++ cs name ++ cs "\"," ++ cs "\n"
  ++ unionMembersChunk members
  ++ tab ++ cs "ResolveType: func(p graphql.ResolveParams) *graphql.Object \x7b return nil \x7d, // TODO"
  ++ cs "\n"
  ++ descrChunk tab descr doc
  ++ cs "\x7d)" ++ cs "\n"

/-- Bytes of an enum declaration body: the description, when emitted, sits
between the `Name` field and the `Values` map. -/
def enumChunk (descr : Bool) (doc : Option String) (name : String)
    (values : List AField) : List Char :=
  cs "NewEnum(graphql.EnumConfig\x7b" ++ cs "\n"
  ++ tab ++ cs "Name: \"" ++ cs name ++ cs "\"," ++ cs "\n"
  ++ descrChunk tab descr doc
  ++ tab ++ cs "Values: graphql.EnumValueConfigMap\x7b" ++ cs "\n"
  ++ (values.map (enumValueChunk descr (tab ++ tab))).flatten
  ++ tab ++ cs "\x7d," ++ cs "\n"
  ++ cs "\x7d)" ++ cs "\n"

/-- Bytes of an input-object declaration body. -/
def inputChunk (descr : Bool) (doc : Option String) (name : String)
    (fields : List Arg) : List Char :=
  cs "NewInputObject(graphql.InputObjectConfig\x7b" ++ cs "\n"
  ++ tab ++ cs "Name: \"" ++ cs name ++ cs "\"," ++ cs "\n"
  ++ tab ++ cs "Fields: graphql.InputObjectFieldConfigMap\x7b" ++ cs "\n"
  ++ (fields.map (inputFieldChunk descr (tab ++ tab))).flatten
  ++ tab ++ cs "\x7d," ++ cs "\n"
  ++ descrChunk tab descr doc
  ++ cs "\x7d)" ++ cs "\n"

/-- Bytes of a directive's `Locations` field: a single location renders
inline, unquoted and without a trailing comma; two or more render as a
quoted multi-line list. -/
def locsChunk (locs : List String) : List Char :=
  match locs with
  | [] => []
  | [l] => tab ++ cs "Locations: []string\x7b " ++ cs l ++ cs " \x7d" ++ cs "\n"
  | _ :: _ :: _ =>
    tab ++ cs "Locations: []string\x7b" ++ cs "\n"
    ++ (locs.map (fun l => tab ++ tab ++ cs "\"" ++ cs l ++ cs "\"," ++ cs "\n")).flatten
    ++ tab ++ cs "\x7d," ++ cs "\n"

/-- Bytes of a directive declaration body: the description, when emitted,
sits between the `Name` field and the `Locations` field. -/
def directiveChunk (descr : Bool) (doc : Option String) (name : String)
    (locs : List String) (args : Option (List Arg)) : List Char :=
  cs "NewDirective(graphql.DirectiveConfig\x7b" ++ cs "\n"
  ++ tab ++ cs "Name: \"" ++ cs name ++ cs "\"," ++ cs "\n"
  ++ descrLineChunk tab descr doc
  ++ locsChunk locs
  ++ (match args with
      | some as2 =>
        tab ++ cs "Args: graphql.FieldConfigArgument\x7b" ++ cs "\n"
        ++ (as2.map (argChunk descr (tab ++ tab))).flatten
        ++ tab ++ cs "\x7d," ++ cs "\n"
      | none => [])
  ++ cs "\x7d)" ++ cs "\n"

/-- Bytes of one emitted declaration's body, by kind. -/
def kindChunk (descr : Bool) (doc : Option String) (name : String) :
    TypeSpecType → List Char
  | .scalar => scalarChunk descr doc name
  | .object ifs fs => objectChunk descr doc name ifs fs
  | .iface fs => ifaceChunk descr doc name fs
  | .union ms => unionChunk descr doc name ms
  | .enum vs => enumChunk descr doc name vs
  | .input fs => inputChunk descr doc name fs
  | .directive ls as2 => directiveChunk descr doc name ls as2
  | .schema _ => []

/-- Bytes one declaration contributes to the walk (`none` when skipped):
the `var <name>Type = graphql.` head followed by the body. -/
def renderDecl (descr : Bool) (d : TypeDecl) : Option (List Char) :=
  (declEmit? d).map
    (fun p => cs "var " ++ cs p.1 ++ cs "Type" ++ cs " = graphql." ++ kindChunk descr d.doc p.1 p.2)

/-- Whether the last element of the declaration list is emitted (an empty
list counts as true).  When this fails, the index-based blank-line test
leaves a blank line after the final emitted declaration. -/
def lastEmitted (l : List TypeDecl) : Bool :=
  match l.getLast? with
  | some d => (declEmit? d).isSome
  | none => true

/-- Bytes of the fixed header. -/
def headerChunk (pkg : String) : List Char :=
  cs "package " ++ cs pkg ++ cs "\n\n" ++ cs "import \"github.com/graphql-go/graphql\"" ++ cs "\n\n"

/-- Label written for a root operation name; an unknown name matches no
switch case and produces no label. -/
def rootOpLabel (nm : String) : List Char :=
  if nm = "query" then cs "Query: "
  else if nm = "mutation" then cs "Mutation: "
  else if nm = "subscription" then cs "Subscription: "
  else []

/-- Bytes of one root-operation line of the schema-assembly block, under
the assumption that the operation's type is a plain identifier. -/
def rootOpChunk (op : AField) : List Char :=
  tab ++ tab ++ rootOpLabel op.name
  ++ (match op.type with
      | some (.ident n) => cs n
      | _ => [])
  ++ cs "Type" ++ cs "," ++ cs "\n"

/-- Bytes of the relocated schema-assembly block, including the blank line
the driver prints before it. -/
def initChunk (ops : List AField) : List Char :=
  cs "\n"
  ++ cs "func init() \x7b" ++ cs "\n"
  ++ tab ++ cs "var err error" ++ cs "\n"
  ++ tab ++ cs "Schema, err = graphql.NewSchema(graphql.SchemaConfig\x7b" ++ cs "\n"
  ++ (ops.map rootOpChunk).flatten
  ++ tab ++ cs "\x7d)" ++ cs "\n"
  ++ tab ++ cs "if err != nil \x7b" ++ cs "\n"
  ++ tab ++ tab ++ cs "panic(err)" ++ cs "\n"
  ++ tab ++ cs "\x7d" ++ cs "\n"
  ++ cs "\x7d" ++ cs "\n"

/-- The full assembled byte stream for a schema-carrying document whose
last declaration entry is emitted. -/
def assembledChunk (opts : Options) (descr : Bool) (doc : GDoc) (ops : List AField) : List Char :=
  headerChunk opts.Package
  ++ cs "var Schema graphql.Schema" ++ cs "\n" ++ cs "\n"
  ++ List.intercalate (cs "\n") (doc.types.filterMap (renderDecl descr))
  ++ initChunk ops

/-!
Example fixtures used by counterexamples and witnesses.
-/

/-- A plain document with no declarations and no directives. -/
def exDocPlain : GDoc := { name := "test.gql", types := [], schema := none, directives := [] }

/-- A document whose `go` directive carries a malformed boolean. -/
def exDocBadBool : GDoc :=
  { name := "test.gql", types := [], schema := none,
    directives :=
      [ { name := "go",
          args := some [.compositeArg (.objv [("descriptions", .basic "maybe")])] } ] }

/-- The root operation `query: Query`. -/
def exRootOp : AField := { name := "query", type := some (.ident "Query"), args := none, doc := none }

/-- A schema declaration with the single root operation `query: Query`. -/
def exSchemaDecl : TypeDecl := { doc := none, spec := .typeSpec "" (.schema [exRootOp]) }

/-- A scalar declaration named `A`. -/
def exScalarA : TypeDecl := { doc := none, spec := .typeSpec "A" .scalar }

/-- A document whose schema declaration is the last element of the type
list. -/
def exDocSchemaLast : GDoc :=
  { name := "test.gql", types := [exScalarA, exSchemaDecl],
    schema := some exSchemaDecl, directives := [] }

/-- A document whose schema declaration comes first, as in the package's
own test input. -/
def exDocSchemaFirst : GDoc :=
  { name := "test.gql", types := [exSchemaDecl, exScalarA],
    schema := some exSchemaDecl, directives := [] }

/-- An argument `a: String` with no default and no doc. -/
def exArgA : Arg := { name := "a", type := some (.ident "String"), default := none, doc := none }

/-- A field `f(a: String): String`. -/
def exFieldF : AField :=
  { name := "f", type := some (.ident "String"), args := some [exArgA], doc := none }

/-!
Theorems.  First the characterization lemmas relating each emitter to its
closed-form chunk, then the per-claim theorems.
-/

theorem Out_push (b ind : List Char) : Gen.Out ⟨b, ind ++ ['\t']⟩ = ⟨b, ind⟩ := by
  simp [Gen.Out]

theorem Out_push2 (b ind : List Char) :
    Gen.Out ⟨b, ind ++ ['\t', '\t']⟩ = ⟨b, ind ++ ['\t']⟩ := by
  have h : ind ++ ['\t', '\t'] = (ind ++ ['\t']) ++ ['\t'] := by simp
  rw [h, Out_push]

theorem Out_one (b : List Char) : Gen.Out ⟨b, ['\t']⟩ = ⟨b, []⟩ := by
  simp [Gen.Out]

theorem Out_two (b : List Char) : Gen.Out ⟨b, ['\t', '\t']⟩ = ⟨b, ['\t']⟩ := by
  simp [Gen.Out]

theorem foldl_chunk {α : Type} (f : Gen → α → Gen) (r : α → List Char) (ind : List Char)
    (h : ∀ (a : α) (b : List Char), f ⟨b, ind⟩ a = ⟨b ++ r a, ind⟩) :
    ∀ (l : List α) (b : List Char),
      List.foldl f ⟨b, ind⟩ l = ⟨b ++ (l.map r).flatten, ind⟩ := by
  intro l
  induction l with
  | nil => intro b; simp
  | cons x xs ih =>
    intro b
    rw [List.foldl_cons, h x b, ih (b ++ r x)]
    simp [List.append_assoc]

theorem descrPart_eq (descr : Bool) (doc : Option String) (b ind : List Char) :
    Gen.descrPart ⟨b, ind⟩ descr doc = ⟨b ++ descrChunk ind descr doc, ind⟩ := by
  rcases doc with _ | t
  · cases descr <;> simp [Gen.descrPart, descrChunk]
  · cases descr
    · simp [Gen.descrPart, descrChunk]
    · by_cases h : t.length > 0
      · simp [Gen.descrPart, descrChunk, Gen.printDescr, Gen.write, Gen.writeInd, h, cs,
          List.append_assoc]
      · simp [Gen.descrPart, descrChunk, Gen.printDescr, Gen.write, h, cs]

theorem descrLineP_eq (descr : Bool) (doc : Option String) (b ind : List Char) :
    Gen.descrLineP ⟨b, ind⟩ descr doc = ⟨b ++ descrLineChunk ind descr doc, ind⟩ := by
  rcases doc with _ | t
  · cases descr <;> simp [Gen.descrLineP, descrLineChunk]
  · cases descr
    · simp [Gen.descrLineP, descrLineChunk]
    · by_cases h : t.length > 0
      · simp [Gen.descrLineP, descrLineChunk, Gen.P, Gen.write, PArg.text, h, cs,
          List.append_assoc]
      · simp [Gen.descrLineP, descrLineChunk, h, cs]

theorem objArgStep_eq (descr : Bool) (a : Arg) (b ind : List Char) :
    objArgStep descr a ⟨b, ind⟩ = ⟨b ++ argChunk descr ind a, ind⟩ := by
  rcases a with ⟨nm, ty, df, dc⟩
  rcases df with _ | dv <;>
    simp [objArgStep, argChunk, Gen.P, Gen.write, Gen.writeInd, Gen.In, PArg.text,
      descrPart_eq, Out_push, tab, cs, List.append_assoc]

theorem ifaceArgStep_eq (descr : Bool) (a : Arg) (b ind : List Char) :
    ifaceArgStep descr a ⟨b, ind⟩ = ⟨b ++ ifaceArgChunk descr ind a, ind⟩ := by
  rcases a with ⟨nm, ty, df, dc⟩
  rcases df with _ | dv <;>
    simp [ifaceArgStep, ifaceArgChunk, Gen.P, Gen.write, Gen.writeInd, Gen.In, PArg.text,
      descrPart_eq, Out_push, tab, cs, List.append_assoc]

theorem objFieldStep_eq (descr : Bool) (f : AField) (b ind : List Char) :
    objFieldStep descr f ⟨b, ind⟩ = ⟨b ++ fieldChunk descr ind f, ind⟩ := by
  rcases f with ⟨nm, ty, ar, dc⟩
  rcases ar with _ | args
  · simp [objFieldStep, fieldChunk, Gen.P, Gen.write, Gen.writeInd, Gen.In, PArg.text,
      descrPart_eq, Out_push, tab, cs, List.append_assoc]
  · have hl := foldl_chunk (fun (g : Gen) a => objArgStep descr a g)
      (argChunk descr (ind ++ ['\t', '\t'])) (ind ++ ['\t', '\t'])
      (fun a b2 => objArgStep_eq descr a b2 (ind ++ ['\t', '\t'])) args
    simp [objFieldStep, fieldChunk, Gen.P, Gen.write, Gen.writeInd, Gen.In, PArg.text,
      descrPart_eq, Out_push, Out_push2, tab, cs, List.append_assoc, hl]

theorem ifaceFieldStep_eq (descr : Bool) (f : AField) (b ind : List Char) :
    ifaceFieldStep descr f ⟨b, ind⟩ = ⟨b ++ ifaceFieldChunk descr ind f, ind⟩ := by
  rcases f with ⟨nm, ty, ar, dc⟩
  rcases ar with _ | args
  · simp [ifaceFieldStep, ifaceFieldChunk, Gen.P, Gen.write, Gen.writeInd, Gen.In, PArg.text,
      descrPart_eq, Out_push, tab, cs, List.append_assoc]
  · have hl := foldl_chunk (fun (g : Gen) a => ifaceArgStep descr a g)
      (ifaceArgChunk descr (ind ++ ['\t', '\t'])) (ind ++ ['\t', '\t'])
      (fun a b2 => ifaceArgStep_eq descr a b2 (ind ++ ['\t', '\t'])) args
    simp [ifaceFieldStep, ifaceFieldChunk, Gen.P, Gen.write, Gen.writeInd, Gen.In, PArg.text,
      descrPart_eq, Out_push, Out_push2, tab, cs, List.append_assoc, hl]

theorem inputFieldStep_eq (descr : Bool) (f : Arg) (b ind : List Char) :
    inputFieldStep descr f ⟨b, ind⟩ = ⟨b ++ inputFieldChunk descr ind f, ind⟩ := by
  rcases f with ⟨nm, ty, df, dc⟩
  rcases df with _ | dv <;>
    simp [inputFieldStep, inputFieldChunk, Gen.P, Gen.write, Gen.writeInd, Gen.In, PArg.text,
      descrPart_eq, Out_push, tab, cs, List.append_assoc]

theorem enumValueStep_eq (descr : Bool) (v : AField) (b ind : List Char) :
    enumValueStep descr v ⟨b, ind⟩ = ⟨b ++ enumValueChunk descr ind v, ind⟩ := by
  rcases v with ⟨nm, ty, ar, dc⟩
  simp [enumValueStep, enumValueChunk, Gen.P, Gen.write, Gen.writeInd, Gen.In, PArg.text,
    descrPart_eq, Out_push, tab, cs, List.append_assoc]

theorem objInterfaceStep_eq (i : String) (b : List Char) :
    objInterfaceStep i ⟨b, ['\t', '\t']⟩
      = ⟨b ++ (['\t', '\t'] ++ cs i ++ cs "Type" ++ cs "," ++ cs "\n"), ['\t', '\t']⟩ := by
  simp [objInterfaceStep, Gen.P, Gen.write, PArg.text, cs, List.append_assoc]

theorem unionMemberStep_eq (m : String) (b : List Char) :
    unionMemberStep m ⟨b, ['\t', '\t']⟩
      = ⟨b ++ (['\t', '\t'] ++ cs m ++ cs "Type" ++ [','] ++ cs "\n"), ['\t', '\t']⟩ := by
  simp [unionMemberStep, Gen.P, Gen.write, PArg.text, String.singleton, cs, List.append_assoc]

theorem locStep_eq (l : String) (b : List Char) :
    locStep l ⟨b, ['\t', '\t']⟩
      = ⟨b ++ (['\t', '\t'] ++ cs "\"" ++ cs l ++ cs "\"," ++ cs "\n"), ['\t', '\t']⟩ := by
  simp [locStep, Gen.P, Gen.write, PArg.text, cs, List.append_assoc]

theorem generateScalar_eq (descr : Bool) (doc : Option String) (name : String) (b : List Char) :
    generateScalar descr doc name ⟨b, []⟩ = ⟨b ++ scalarChunk descr doc name, []⟩ := by
  simp [generateScalar, scalarChunk, Gen.P, Gen.write, Gen.In, PArg.text,
    descrLineP_eq, Out_one, tab, cs, List.append_assoc]

theorem generateObject_eq (descr : Bool) (doc : Option String) (name : String)
    (interfaces : List String) (fields : List AField) (b : List Char) :
    generateObject descr doc name interfaces fields ⟨b, []⟩
      = ⟨b ++ objectChunk descr doc name interfaces fields, []⟩ := by
  have hf := foldl_chunk (fun (g : Gen) f => objFieldStep descr f g)
    (fieldChunk descr ['\t', '\t']) ['\t', '\t']
    (fun f b2 => objFieldStep_eq descr f b2 ['\t', '\t']) fields
  have hfc : fieldChunk descr (tab ++ tab) = fieldChunk descr ['\t', '\t'] := by
    simp [tab, cs]
  rcases interfaces with _ | ⟨i, _ | ⟨j, rest⟩⟩
  · simp [generateObject, objectChunk, interfacesChunk, Gen.P, Gen.write, Gen.writeInd, Gen.In,
      PArg.text, descrPart_eq, Out_one, Out_two, tab, cs, List.append_assoc, hf, hfc]
  · simp [generateObject, objectChunk, interfacesChunk, Gen.P, Gen.write, Gen.writeInd, Gen.In,
      PArg.text, descrPart_eq, Out_one, Out_two, tab, cs, List.append_assoc, hf, hfc]
  · have hi := foldl_chunk (fun (g : Gen) i => objInterfaceStep i g)
      (fun i => ['\t', '\t'] ++ cs i ++ cs "Type" ++ cs "," ++ cs "\n") ['\t', '\t']
      (fun a b2 => objInterfaceStep_eq a b2) (i :: j :: rest)
    simp [generateObject, objectChunk, interfacesChunk, Gen.P, Gen.write, Gen.writeInd, Gen.In,
      PArg.text, descrPart_eq, Out_one, Out_two, tab, cs, List.append_assoc, hf, hfc, hi]

theorem generateInterface_eq (descr : Bool) (doc : Option String) (name : String)
    (fields : List AField) (b : List Char) :
    generateInterface descr doc name fields ⟨b, []⟩
      = ⟨b ++ ifaceChunk descr doc name fields, []⟩ := by
  have hf := foldl_chunk (fun (g : Gen) f => ifaceFieldStep descr f g)
    (ifaceFieldChunk descr ['\t', '\t']) ['\t', '\t']
    (fun f b2 => ifaceFieldStep_eq descr f b2 ['\t', '\t']) fields
  have hfc : ifaceFieldChunk descr (tab ++ tab) = ifaceFieldChunk descr ['\t', '\t'] := by
    simp [tab, cs]
  simp [generateInterface, ifaceChunk, Gen.P, Gen.write, Gen.In, PArg.text,
    descrPart_eq, Out_one, Out_two, tab, cs, List.append_assoc, hf, hfc]

theorem generateUnion_eq (descr : Bool) (doc : Option String) (name : String)
    (members : List String) (b : List Char) :
    generateUnion descr doc name members ⟨b, []⟩
      = ⟨b ++ unionChunk descr doc name members, []⟩ := by
  rcases members with _ | ⟨m, _ | ⟨m2, rest⟩⟩
  · simp [generateUnion, unionChunk, unionMembersChunk, Gen.P, Gen.write, Gen.In,
      PArg.text, descrPart_eq, Out_one, tab, cs, List.append_assoc]
  · simp [generateUnion, unionChunk, unionMembersChunk, Gen.P, Gen.write, Gen.In,
      PArg.text, descrPart_eq, Out_one, tab, cs, List.append_assoc]
  · have hm := foldl_chunk (fun (g : Gen) m => unionMemberStep m g)
      (fun m => ['\t', '\t'] ++ cs m ++ cs "Type" ++ [','] ++ cs "\n") ['\t', '\t']
      (fun a b2 => unionMemberStep_eq a b2) (m :: m2 :: rest)
    simp [generateUnion, unionChunk, unionMembersChunk, Gen.P, Gen.write, Gen.In,
      PArg.text, descrPart_eq, Out_one, Out_two, tab, cs, List.append_assoc, hm]

theorem generateEnum_eq (descr : Bool) (doc : Option String) (name : String)
    (values : List AField) (b : List Char) :
    generateEnum descr doc name values ⟨b, []⟩
      = ⟨b ++ enumChunk descr doc name values, []⟩ := by
  have hv := foldl_chunk (fun (g : Gen) v => enumValueStep descr v g)
    (enumValueChunk descr ['\t', '\t']) ['\t', '\t']
    (fun v b2 => enumValueStep_eq descr v b2 ['\t', '\t']) values
  have hvc : enumValueChunk descr (tab ++ tab) = enumValueChunk descr ['\t', '\t'] := by
    simp [tab, cs]
  simp [generateEnum, enumChunk, Gen.P, Gen.write, Gen.In, PArg.text,
    descrPart_eq, Out_one, Out_two, tab, cs, List.append_assoc, hv, hvc]

theorem generateInput_eq (descr : Bool) (doc : Option String) (name : String)
    (fields : List Arg) (b : List Char) :
    generateInput descr doc name fields ⟨b, []⟩
      = ⟨b ++ inputChunk descr doc name fields, []⟩ := by
  have hf := foldl_chunk (fun (g : Gen) f => inputFieldStep descr f g)
    (inputFieldChunk descr ['\t', '\t']) ['\t', '\t']
    (fun f b2 => inputFieldStep_eq descr f b2 ['\t', '\t']) fields
  have hfc : inputFieldChunk descr (tab ++ tab) = inputFieldChunk descr ['\t', '\t'] := by
    simp [tab, cs]
  simp [generateInput, inputChunk, Gen.P, Gen.write, Gen.In, PArg.text,
    descrPart_eq, Out_one, Out_two, tab, cs, List.append_assoc, hf, hfc]

theorem generateDirective_eq (descr : Bool) (doc : Option String) (name : String)
    (locs : List String) (args : Option (List Arg)) (b : List Char) :
    generateDirective descr doc name locs args ⟨b, []⟩
      = ⟨b ++ directiveChunk descr doc name locs args, []⟩ := by
  have hac : ∀ as2 : List Arg, (List.map (argChunk descr (tab ++ tab)) as2).flatten
      = (List.map (argChunk descr ['\t', '\t']) as2).flatten := by
    intro as2
    have h : argChunk descr (tab ++ tab) = argChunk descr ['\t', '\t'] := by simp [tab, cs]
    rw [h]
  rcases args with _ | as2
  · rcases locs with _ | ⟨l, _ | ⟨l2, rest⟩⟩
    · simp [generateDirective, directiveChunk, locsChunk, Gen.P, Gen.write, Gen.In,
        PArg.text, descrLineP_eq, Out_one, tab, cs, List.append_assoc]
    · simp [generateDirective, directiveChunk, locsChunk, Gen.P, Gen.write, Gen.In,
        PArg.text, descrLineP_eq, Out_one, tab, cs, List.append_assoc]
    · have hl := foldl_chunk (fun (g : Gen) l => locStep l g)
        (fun l => ['\t', '\t'] ++ cs "\"" ++ cs l ++ cs "\"," ++ cs "\n") ['\t', '\t']
        (fun a b2 => locStep_eq a b2) (l :: l2 :: rest)
      simp [generateDirective, directiveChunk, locsChunk, Gen.P, Gen.write, Gen.In,
        PArg.text, descrLineP_eq, Out_one, Out_two, tab, cs, List.append_assoc, hl]
  · have ha := foldl_chunk (fun (g : Gen) a => objArgStep descr a g)
      (argChunk descr ['\t', '\t']) ['\t', '\t']
      (fun a b2 => objArgStep_eq descr a b2 ['\t', '\t']) as2
    rcases locs with _ | ⟨l, _ | ⟨l2, rest⟩⟩
    · simp [generateDirective, directiveChunk, locsChunk, Gen.P, Gen.write, Gen.In,
        PArg.text, descrLineP_eq, Out_one, Out_two, tab, cs, List.append_assoc, ha, hac]
    · simp [generateDirective, directiveChunk, locsChunk, Gen.P, Gen.write, Gen.In,
        PArg.text, descrLineP_eq, Out_one, Out_two, tab, cs, List.append_assoc, ha, hac]
    · have hl := foldl_chunk (fun (g : Gen) l => locStep l g)
        (fun l => ['\t', '\t'] ++ cs "\"" ++ cs l ++ cs "\"," ++ cs "\n") ['\t', '\t']
        (fun a b2 => locStep_eq a b2) (l :: l2 :: rest)
      simp [generateDirective, directiveChunk, locsChunk, Gen.P, Gen.write, Gen.In,
        PArg.text, descrLineP_eq, Out_one, Out_two, tab, cs, List.append_assoc, ha, hac, hl]

theorem varDeclHead_eq (name : String) (b : List Char) :
    varDeclHead name ⟨b, []⟩
      = ⟨b ++ cs "var " ++ cs name ++ cs "Type" ++ cs " = graphql.", []⟩ := by
  simp [varDeclHead, Gen.write, cs, List.append_assoc]

theorem dispatchEmitter_eq (descr : Bool) (dc : Option String) (name : String)
    (ty : TypeSpecType) (b : List Char) :
    dispatchEmitter descr dc name ty ⟨b, []⟩ = ⟨b ++ kindChunk descr dc name ty, []⟩ := by
  cases ty <;>
    simp [dispatchEmitter, kindChunk, generateScalar_eq, generateObject_eq,
      generateInterface_eq, generateUnion_eq, generateEnum_eq, generateInput_eq,
      generateDirective_eq]

theorem intercalate_cons_of_ne_nil {α : Type} (sep : List α) (x : List α)
    (xs : List (List α)) (h : xs ≠ []) :
    List.intercalate sep (x :: xs) = x ++ sep ++ List.intercalate sep xs := by
  cases xs with
  | nil => exact absurd rfl h
  | cons y ys => simp [List.intercalate, List.intersperse, List.append_assoc]

theorem filterMap_renderDecl_ne_nil (descr : Bool) (l : List TypeDecl) (hne : l ≠ [])
    (hl : lastEmitted l = true) : l.filterMap (renderDecl descr) ≠ [] := by
  have hgl : l.getLast? = some (l.getLast hne) := List.getLast?_eq_getLast l hne
  simp only [lastEmitted, hgl] at hl
  obtain ⟨p, hp⟩ := Option.isSome_iff_exists.mp hl
  have hmem := List.getLast_mem hne
  have hin : (cs "var " ++ cs p.1 ++ cs "Type" ++ cs " = graphql."
      ++ kindChunk descr (l.getLast hne).doc p.1 p.2) ∈ l.filterMap (renderDecl descr) := by
    refine List.mem_filterMap.mpr ⟨l.getLast hne, hmem, ?_⟩
    simp [renderDecl, hp]
  intro hcontra
  rw [hcontra] at hin
  exact absurd hin (List.not_mem_nil _)

theorem genTypesAux_eq (descr : Bool) (len : Nat) :
    ∀ (rest : List TypeDecl) (i : Nat) (b : List Char),
      i + rest.length = len → lastEmitted rest = true →
      genTypesAux descr len i rest ⟨b, []⟩
        = ⟨b ++ List.intercalate (cs "\n") (rest.filterMap (renderDecl descr)), []⟩ := by
  intro rest
  induction rest with
  | nil =>
    intro i b _ _
    simp [genTypesAux, List.intercalate]
  | cons d rest ih =>
    intro i b hlen hlast
    cases hd : declEmit? d with
    | none =>
      have hrest_ne : rest ≠ [] := by
        intro h
        subst h
        simp [lastEmitted, hd] at hlast
      have hlast2 : lastEmitted rest = true := by
        cases rest with
        | nil => exact absurd rfl hrest_ne
        | cons e es => simpa [lastEmitted, List.getLast?_cons_cons] using hlast
      have hrd : renderDecl descr d = none := by simp [renderDecl, hd]
      have hstep : genTypesAux descr len i (d :: rest) ⟨b, []⟩
          = genTypesAux descr len (i + 1) rest ⟨b, []⟩ := by
        simp [genTypesAux, hd]
      rw [hstep, ih (i + 1) b (by simp at hlen; omega) hlast2]
      simp [hrd]
    | some p =>
      obtain ⟨name, ty⟩ := p
      have hrd : renderDecl descr d
          = some (cs "var " ++ cs name ++ cs "Type" ++ cs " = graphql."
              ++ kindChunk descr d.doc name ty) := by
        simp [renderDecl, hd]
      cases rest with
      | nil =>
        have hi : i + 1 = len := by simpa using hlen
        simp [genTypesAux, hd, hi, varDeclHead_eq, dispatchEmitter_eq, hrd,
          List.intercalate, List.append_assoc]
      | cons e es =>
        have hi : i + 1 ≠ len := by
          simp [List.length_cons] at hlen
          omega
        have hlast2 : lastEmitted (e :: es) = true := by
          simpa [lastEmitted, List.getLast?_cons_cons] using hlast
        have hfne := filterMap_renderDecl_ne_nil descr (e :: es) (by simp) hlast2
        have hstep : genTypesAux descr len i (d :: e :: es) ⟨b, []⟩
            = genTypesAux descr len (i + 1) (e :: es)
                ⟨b ++ (cs "var " ++ cs name ++ cs "Type" ++ cs " = graphql."
                  ++ kindChunk descr d.doc name ty) ++ cs "\n", []⟩ := by
          simp [genTypesAux, hd, hi, varDeclHead_eq, dispatchEmitter_eq, Gen.P, Gen.write,
            cs, List.append_assoc]
        rw [hstep, ih (i + 1) _ (by simp [List.length_cons] at hlen ⊢; omega) hlast2]
        have hfm : List.filterMap (renderDecl descr) (d :: e :: es)
            = (cs "var " ++ cs name ++ cs "Type" ++ cs " = graphql."
                ++ kindChunk descr d.doc name ty) :: List.filterMap (renderDecl descr) (e :: es) := by
          rw [List.filterMap_cons, hrd]
        rw [hfm, intercalate_cons_of_ne_nil _ _ _ hfne]
        simp [List.append_assoc]

theorem rootOpStep_eq (op : AField) (nm : String) (hop : op.type = some (.ident nm))
    (b : List Char) :
    rootOpStep op ⟨b, ['\t', '\t']⟩ = some ⟨b ++ rootOpChunk op, ['\t', '\t']⟩ := by
  simp only [rootOpStep, rootOpChunk, rootOpLabel, Gen.writeInd, Gen.write, hop]
  split_ifs <;> simp [tab, cs, List.append_assoc]

theorem rootOpsLoop_eq :
    ∀ (ops : List AField), (∀ op ∈ ops, ∃ nm, op.type = some (.ident nm)) →
      ∀ b : List Char,
        rootOpsLoop ops ⟨b, ['\t', '\t']⟩
          = some ⟨b ++ (ops.map rootOpChunk).flatten, ['\t', '\t']⟩ := by
  intro ops
  induction ops with
  | nil => intro _ b; simp [rootOpsLoop]
  | cons op rest ih =>
    intro hops b
    obtain ⟨nm, hnm⟩ := hops op (by simp)
    rw [rootOpsLoop, rootOpStep_eq op nm hnm b]
    show rootOpsLoop rest ⟨b ++ rootOpChunk op, ['\t', '\t']⟩ = _
    rw [ih (fun o ho => hops o (by simp [ho])) _]
    simp [List.append_assoc]

theorem emitInitBlock_eq (sd : TypeDecl) (sn : String) (ops : List AField)
    (hsd : sd.spec = .typeSpec sn (.schema ops))
    (hops : ∀ op ∈ ops, ∃ nm, op.type = some (.ident nm)) (b : List Char) :
    emitInitBlock sd ⟨b, []⟩ = some ⟨b ++ initChunk ops, []⟩ := by
  have hro : schemaRootOps? sd = some ops := by simp [schemaRootOps?, hsd]
  have hloop := rootOpsLoop_eq ops hops
  simp [emitInitBlock, initChunk, hro, Gen.P, Gen.write, Gen.In, PArg.text, Out_one, Out_two,
    tab, cs, List.append_assoc, hloop]

/-- C1: for a union with exactly one member the claim says the emitted
`Types` field contains the member name with the `Type` suffix (here
`EchoType`).  In fact the member identifier is handed to `P` as an
`*ast.Ident`, which matches no case of `P`'s type switch, so only the bare
suffix `Type` appears between the braces and the member name is dropped:
the evaluation below shows the exact emitted text for the single-member
union `SearchResult = Echo` and that `EchoType` appears nowhere in it. -/
theorem c1_union_single_member_dropped :
    (generateUnion false none "SearchResult" ["Echo"] ⟨[], []⟩).buf
      = cs "NewUnion(graphql.UnionConfig\x7b\n\tName: \"SearchResult\",\n\tTypes: []*graphql.Object\x7b Type \x7d,\n\tResolveType: func(p graphql.ResolveParams) *graphql.Object \x7b return nil \x7d, // TODO\n\x7d)\n"
    ∧ ¬ List.IsInfix (cs "EchoType")
        ((generateUnion false none "SearchResult" ["Echo"] ⟨[], []⟩).buf) :=
  ⟨rfl, by decide⟩

/-- C2 counterexample: the claim says an emitted description field is
always the last keyed field before the construct's closing delimiter.  For
a scalar declaration with a doc comment and descriptions enabled, the
`Serialize` keyed field follows the `Description` field, as the evaluated
output shows. -/
theorem c2_description_not_last_counterexample :
    (generateScalar true (some "Version represents an API version.\n") "Version" ⟨[], []⟩).buf
      = cs "NewScalar(graphql.ScalarConfig\x7b\n\tName: \"Version\",\n\tDescription: \"Version represents an API version.\",\n\tSerialize: func(value interface\x7b\x7d) interface\x7b\x7d \x7b return nil \x7d, // TODO\n\x7d)\n"
    ∧ List.IsInfix (cs "Description: \"Version represents an API version.\",\n\tSerialize")
        ((generateScalar true (some "Version represents an API version.\n") "Version" ⟨[], []⟩).buf) :=
  ⟨rfl, by decide⟩

/-- C2 amended: every emitter equals its closed-form chunk, for every
input.  The chunks spell out the description placement: a description is
emitted only when descriptions are enabled and the doc text is non-empty,
always with the final character of the doc text dropped (`descrChunk` /
`descrLineChunk`); it is the last keyed field before the closing delimiter
for object, interface, union and input declarations and for every
field/argument/enum-value sub-construct, while for scalar, enum and
directive declarations it immediately follows the `Name` field, preceding
the `Serialize`, `Values` and `Locations`/`Args` fields respectively. -/
theorem c2_description_placement_amended :
    (∀ (descr : Bool) (doc : Option String) (name : String) (b : List Char),
        generateScalar descr doc name ⟨b, []⟩ = ⟨b ++ scalarChunk descr doc name, []⟩)
    ∧ (∀ (descr : Bool) (doc : Option String) (name : String)
          (interfaces : List String) (fields : List AField) (b : List Char),
        generateObject descr doc name interfaces fields ⟨b, []⟩
          = ⟨b ++ objectChunk descr doc name interfaces fields, []⟩)
    ∧ (∀ (descr : Bool) (doc : Option String) (name : String)
          (fields : List AField) (b : List Char),
        generateInterface descr doc name fields ⟨b, []⟩
          = ⟨b ++ ifaceChunk descr doc name fields, []⟩)
    ∧ (∀ (descr : Bool) (doc : Option String) (name : String)
          (members : List String) (b : List Char),
        generateUnion descr doc name members ⟨b, []⟩
          = ⟨b ++ unionChunk descr doc name members, []⟩)
    ∧ (∀ (descr : Bool) (doc : Option String) (name : String)
          (values : List AField) (b : List Char),
        generateEnum descr doc name values ⟨b, []⟩
          = ⟨b ++ enumChunk descr doc name values, []⟩)
    ∧ (∀ (descr : Bool) (doc : Option String) (name : String)
          (fields : List Arg) (b : List Char),
        generateInput descr doc name fields ⟨b, []⟩
          = ⟨b ++ inputChunk descr doc name fields, []⟩)
    ∧ (∀ (descr : Bool) (doc : Option String) (name : String)
          (locs : List String) (args : Option (List Arg)) (b : List Char),
        generateDirective descr doc name locs args ⟨b, []⟩
          = ⟨b ++ directiveChunk descr doc name locs args, []⟩) :=
  ⟨generateScalar_eq, generateObject_eq, generateInterface_eq, generateUnion_eq,
    generateEnum_eq, generateInput_eq, generateDirective_eq⟩

/-- C3: the claim says the interface emitter produces exactly the object
emitter's field and argument text minus the `Resolve` line.  For the field
`f(a: String): String` the object emitter terminates the argument's
`Type:` line with a comma and newline, but the interface emitter writes
neither, so the closing `\x7d,` of the argument config is glued onto the
same line (with the inner indentation in between); the two evaluations
below show both outputs and the malformed glued line. -/
theorem c3_interface_arg_divergence :
    (generateInterface false none "I" [exFieldF] ⟨[], []⟩).buf
      = cs "NewInterface(graphql.InterfaceConfig\x7b\n\tName: \"I\",\n\tFields: graphql.Fields\x7b\n\t\t\"f\": &graphql.Field\x7b\n\t\t\tType: graphql.String,\n\t\t\tArgs: graphql.FieldConfigArgument\x7b\n\t\t\t\t\"a\": &graphql.ArgumentConfig\x7b\n\t\t\t\t\tType: graphql.String\t\t\t\t\x7d,\n\t\t\t\x7d,\n\t\t\x7d,\n\t\x7d,\n\x7d)\n"
    ∧ (generateObject false none "I" [] [exFieldF] ⟨[], []⟩).buf
      = cs "NewObject(graphql.ObjectConfig\x7b\n\tName: \"I\",\n\tFields: graphql.Fields\x7b\n\t\t\"f\": &graphql.Field\x7b\n\t\t\tType: graphql.String,\n\t\t\tArgs: graphql.FieldConfigArgument\x7b\n\t\t\t\t\"a\": &graphql.ArgumentConfig\x7b\n\t\t\t\t\tType: graphql.String,\n\t\t\t\t\x7d,\n\t\t\t\x7d,\n\t\t\tResolve: func(p graphql.ResolveParams) (interface\x7b\x7d, error) \x7b return nil, nil \x7d, // TODO\n\t\t\x7d,\n\t\x7d,\n\x7d)\n"
    ∧ List.IsInfix (cs "Type: graphql.String\t\t\t\t\x7d,")
        ((generateInterface false none "I" [exFieldF] ⟨[], []⟩).buf) :=
  ⟨rfl, rfl, by decide⟩

/-- C4 counterexample: the claim says the final quote strip of option
resolution is total, including for an empty or single-quote package
string.  Both of those inputs make `getOptions` hit an out-of-range
index/slice, modelled as `panicR`: resolution neither returns options nor
reports an option-resolution error there. -/
theorem c4_strip_panic_counterexample :
    getOptions exDocPlain (.fields (some "") none) = .panicR
    ∧ getOptions exDocPlain (.fields (some "\"") none) = .panicR :=
  ⟨rfl, rfl⟩

/-- C4 amended: whenever the option merge succeeds, the final quote strip
panics exactly when the resolved package string is empty (the unguarded
`Package[0]` index) or is a single quote character (the out-of-range slice
`Package[1:0]`); for every other resolved package value option resolution
returns an options record. -/
theorem c4_strip_totality_amended (doc : GDoc) (blob : OptsBlob) (o : Options)
    (h : mergeOptions doc blob = .okR o) :
    (getOptions doc blob = .panicR ↔ (o.Package = "" ∨ o.Package = "\""))
    ∧ ((o.Package ≠ "" ∧ o.Package ≠ "\"") → ∃ o2, getOptions doc blob = .okR o2) := by
  have hg : getOptions doc blob = stripPackage o := by simp [getOptions, h]
  rw [hg]
  rcases o with ⟨pkg, dsc⟩
  obtain ⟨l⟩ := pkg
  rcases l with _ | ⟨c, rest⟩
  · constructor
    · simp [stripPackage]
    · intro hne
      exact absurd (by simp [String.ext_iff]) hne.1
  · by_cases hc : c = '"'
    · subst hc
      rcases rest with _ | ⟨d, rest2⟩
      · constructor
        · simp [stripPackage]
        · intro hne
          exact absurd (by simp [String.ext_iff]) hne.2
      · constructor
        · simp [stripPackage, String.ext_iff]
        · intro _
          exact ⟨⟨String.mk ((d :: rest2).dropLast), dsc⟩, by simp [stripPackage]⟩
    · constructor
      · simp [stripPackage, hc, String.ext_iff]
      · intro _
        exact ⟨⟨⟨c :: rest⟩, dsc⟩, by simp [stripPackage, hc]⟩

/-- Witness for C4 amended: at the plain document with an empty blob the
merge resolves the default package `main`, which is neither empty nor a
quote, and resolution indeed returns an options record. -/
theorem c4_strip_totality_amended_w :
    ∃ o2, getOptions exDocPlain .empty = .okR o2 :=
  (c4_strip_totality_amended exDocPlain .empty ⟨"main", false⟩ rfl).2 (by decide)

/-- C5: the claim says a failed sink open is wrapped and returned.  The
source registers `defer goFile.Close()` before checking `Open`'s error, so
when `Open` fails returning no usable handle — the normal Go convention —
the deferred `Close` is a method call on a nil interface and `Generate`
panics instead of returning the wrapped error (first conjunct).  When the
sink does return a handle with the error, and on a write failure, the
error is wrapped with the document name and the generator name `go` after
the full stream has been assembled and the assembled text is discarded
(second and third conjuncts), which is what the claim intends. -/
theorem c5_open_failure_panics :
    generate ⟨[], []⟩ exDocPlain .empty
        { handle := false, openErr := some "open test.go: permission denied", writeErr := none }
      = { outcome := .panicked, opened := true, written := [],
          assembled := cs "package main\n\nimport \"github.com/graphql-go/graphql\"\n\n" }
    ∧ generate ⟨[], []⟩ exDocPlain .empty
        { handle := true, openErr := some "open test.go: permission denied", writeErr := none }
      = { outcome := wrap "test.gql" "open test.go: permission denied", opened := true,
          written := [],
          assembled := cs "package main\n\nimport \"github.com/graphql-go/graphql\"\n\n" }
    ∧ generate ⟨[], []⟩ exDocPlain .empty
        { handle := true, openErr := none, writeErr := some "write boom" }
      = { outcome := wrap "test.gql" "write boom", opened := true, written := [],
          assembled := cs "package main\n\nimport \"github.com/graphql-go/graphql\"\n\n" } :=
  ⟨rfl, rfl, rfl⟩

/-- C6: whenever option resolution reports an error, `Generate` returns
that error wrapped with the document name and the generator name `go`,
the buffer holds no header or declaration text, and the sink is never
opened. -/
theorem c6_option_error_atomic (g : Gen) (doc : GDoc) (blob : OptsBlob) (sink : SinkBehavior)
    (e : String) (h : getOptions doc blob = .errR e) :
    generate g doc blob sink
      = { outcome := wrap doc.name e, opened := false, written := [], assembled := [] } := by
  simp [generate, h, Gen.reset]

/-- Witness for C6: a document directive with the malformed boolean
`maybe` makes `getOptions` fail, and `Generate` — started from a dirty
generator state — returns the wrapped `strconv.ParseBool` error with no
output and the sink unopened. -/
theorem c6_option_error_atomic_w :
    generate ⟨cs "stale", cs "\t"⟩ exDocBadBool .empty ⟨true, none, none⟩
      = { outcome := wrap "test.gql" "strconv.ParseBool: parsing \"maybe\": invalid syntax",
          opened := false, written := [], assembled := [] } :=
  c6_option_error_atomic _ _ _ _ _ rfl

/-- C7 counterexample: the claim says no blank line follows the final
emitted declaration.  When the (skipped) schema declaration is the last
element of the document's type list, the index-based blank-line test fires
after the final emitted declaration, so the output carries a blank line
after it — two blank lines separate the final declaration from the
relocated `func init` block, as the substring `\x7d)\n\n\nfunc init`
shows. -/
theorem c7_trailing_schema_blank_counterexample :
    (generate ⟨[], []⟩ exDocSchemaLast .empty ⟨true, none, none⟩).written
      = cs "package main\n\nimport \"github.com/graphql-go/graphql\"\n\nvar Schema graphql.Schema\n\nvar AType = graphql.NewScalar(graphql.ScalarConfig\x7b\n\tName: \"A\",\n\tSerialize: func(value interface\x7b\x7d) interface\x7b\x7d \x7b return nil \x7d, // TODO\n\x7d)\n\n\nfunc init() \x7b\n\tvar err error\n\tSchema, err = graphql.NewSchema(graphql.SchemaConfig\x7b\n\t\tQuery: QueryType,\n\t\x7d)\n\tif err != nil \x7b\n\t\tpanic(err)\n\t\x7d\n\x7d\n"
    ∧ List.IsInfix (cs "\x7d)\n\n\nfunc init")
        ((generate ⟨[], []⟩ exDocSchemaLast .empty ⟨true, none, none⟩).written) :=
  ⟨rfl, by decide⟩

/-- C7 amended: for a schema-carrying document whose root operations are
plain identifiers and whose last type-list entry is itself emitted, the
output is exactly: the header, the schema forward declaration, the
non-schema declarations rendered in document order and separated by
exactly one blank line with none after the final one (the intercalation),
and the relocated schema-assembly block at the end.  Schema entries inside
the type list contribute nothing to the walk (`renderDecl` is `none` for
them).  When the last entry is skipped instead, an extra blank line
follows the final declaration (see the counterexample). -/
theorem c7_order_blank_lines_amended (g0 : Gen) (doc : GDoc) (blob : OptsBlob) (opts : Options)
    (sd : TypeDecl) (sn : String) (ops : List AField)
    (hopt : getOptions doc blob = .okR opts)
    (hschema : doc.schema = some sd)
    (hsd : sd.spec = .typeSpec sn (.schema ops))
    (hops : ∀ op ∈ ops, ∃ nm, op.type = some (.ident nm))
    (hlast : lastEmitted doc.types = true) :
    generate g0 doc blob ⟨true, none, none⟩
      = { outcome := .ok, opened := true,
          written := assembledChunk opts opts.Descriptions doc ops,
          assembled := assembledChunk opts opts.Descriptions doc ops } := by
  have hwalk := fun b => genTypesAux_eq opts.Descriptions doc.types.length doc.types 0 b
    (by simp) hlast
  have hinit := fun b => emitInitBlock_eq sd sn ops hsd hops b
  simp [generate, hopt, hschema, writeHeader, Gen.reset, Gen.P, Gen.write, PArg.text,
    assembledChunk, headerChunk, cs, List.append_assoc, hwalk, hinit]

/-- Witness for C7 amended: the two-declaration document with the schema
first (as in the package's own test input) generates exactly the
assembled chunk, even from a dirty generator state. -/
theorem c7_order_blank_lines_amended_w :
    generate ⟨cs "junk", cs "\t\t"⟩ exDocSchemaFirst .empty ⟨true, none, none⟩
      = { outcome := .ok, opened := true,
          written := assembledChunk ⟨"main", false⟩ false exDocSchemaFirst [exRootOp],
          assembled := assembledChunk ⟨"main", false⟩ false exDocSchemaFirst [exRootOp] } :=
  c7_order_blank_lines_amended ⟨cs "junk", cs "\t\t"⟩ exDocSchemaFirst .empty ⟨"main", false⟩
    exSchemaDecl "" [exRootOp] rfl rfl rfl
    (by
      intro op hop
      simp only [List.mem_singleton] at hop
      subst hop
      exact ⟨"Query", rfl⟩)
    rfl

/-- C8: the type printer maps the five built-in names to the fixed
graphql identifiers, suffixes every other name with `Type`, renders a list
type as `graphql.NewList(` applied to the recursive rendering of the inner
type and a non-null type as `graphql.NewNonNull(` applied to the recursive
rendering of its (ident-or-list) inner type, and the 2- and 3-level
nestings around `String` render to the expected nested wrapper calls. -/
theorem c8_printType_rendering :
    printType (.ident "Int") = "graphql.Int"
    ∧ printType (.ident "Float") = "graphql.Float"
    ∧ printType (.ident "String") = "graphql.String"
    ∧ printType (.ident "Boolean") = "graphql.Boolean"
    ∧ printType (.ident "ID") = "graphql.ID"
    ∧ (∀ n : String,
        ¬ (n = "Int" ∨ n = "Float" ∨ n = "String" ∨ n = "Boolean" ∨ n = "ID") →
        printType (.ident n) = n ++ "Type")
    ∧ (∀ t : TypeVal, printType (.list t) = "graphql.NewList(" ++ printType t ++ ")")
    ∧ (∀ nn : NNVal,
        printType (.nonNull nn) = "graphql.NewNonNull(" ++ printType nn.toTypeVal ++ ")")
    ∧ printType (.list (.nonNull (.ident "String")))
        = "graphql.NewList(graphql.NewNonNull(graphql.String))"
    ∧ printType (.list (.list (.nonNull (.ident "String"))))
        = "graphql.NewList(graphql.NewList(graphql.NewNonNull(graphql.String)))" := by
  refine ⟨rfl, rfl, rfl, rfl, rfl, ?_, ?_, ?_, rfl, rfl⟩
  · intro n hn
    show identText n = n ++ "Type"
    unfold identText
    split <;> simp_all
  · intro t
    rfl
  · intro nn
    cases nn <;> rfl

/-- Witness for C8: a non-built-in name gets the type suffix. -/
theorem c8_printType_rendering_w : printType (.ident "Echo") = "Echo" ++ "Type" :=
  c8_printType_rendering.2.2.2.2.2.1 "Echo" (by decide)

/-- C9: `Generate` is a pure function of the document, the option blob and
the sink behaviour — two runs from any two prior generator states yield
identical results, because the `Reset` at the start of each invocation
clears the buffer and truncates the indent to empty. -/
theorem c9_determinism_reset :
    (∀ (g1 g2 : Gen) (doc : GDoc) (blob : OptsBlob) (sink : SinkBehavior),
        generate g1 doc blob sink = generate g2 doc blob sink)
    ∧ (∀ g : Gen, g.reset = ⟨[], []⟩) :=
  ⟨fun _ _ _ _ _ => rfl, fun _ => rfl⟩

/-- C10: `In` appends exactly one indent unit; `Out` is the identity on a
state with empty indent (dedent below zero is a no-op, buffer included)
and removes exactly one unit from a non-empty indent; `Out` undoes `In`
exactly.  Indent length is a natural number, so it can never go below
zero. -/
theorem c10_indent_discipline :
    (∀ g : Gen, (g.In).indent = g.indent ++ ['\t'])
    ∧ (∀ g : Gen, g.indent = [] → g.Out = g)
    ∧ (∀ g : Gen, g.indent ≠ [] → (g.Out).indent.length + 1 = g.indent.length)
    ∧ (∀ g : Gen, (g.In).Out = g) := by
  refine ⟨fun g => rfl, fun g h => ?_, fun g h => ?_, fun g => ?_⟩
  · simp [Gen.Out, h]
  · rcases g with ⟨b, ind⟩
    have hpos : 0 < ind.length := List.length_pos.mpr h
    simp only [Gen.Out, hpos, if_pos, List.length_dropLast]
    omega
  · rcases g with ⟨b, ind⟩
    exact Out_push b ind

/-- Witness for C10: dedent from depth zero leaves the state unchanged,
and dedent from depth one removes exactly one unit. -/
theorem c10_indent_discipline_w :
    Gen.Out ⟨cs "x", []⟩ = ⟨cs "x", []⟩
    ∧ (Gen.Out ⟨[], ['\t']⟩).indent.length + 1 = (Gen.mk [] ['\t']).indent.length :=
  ⟨c10_indent_discipline.2.1 ⟨cs "x", []⟩ rfl,
    c10_indent_discipline.2.2.1 ⟨[], ['\t']⟩ (by decide)⟩
